import Mathlib

/-!
Shallow embedding of `scripts/checks/run-clang-tidy.py`.

The script's algorithmic core is `git_changed_lines`, a single forward pass
over the text of `git diff --text --unified=0 <commit>` that accumulates, per
recognized source file, the list of new-side line ranges of its hunks, plus
three small pieces of glue: `check_output` (which drives the exit status),
the GitHub-Actions diagnostic-line rewriting in `tidy`, and the `--fix`
flag selection.

Lines handed to the scanner come from Python's `str.splitlines()` and hence
contain no newline characters; on such lines the prefix/suffix tests below
coincide with the source's anchored regexes (`.` in Python does not cross a
newline, so `^\+\+\+ b/(.*(\.cpp|\.h|\.hpp))$` is exactly "starts with
`+++ b/` and the remainder ends in a recognized extension").
-/

/-- Characters Python treats as whitespace in `str.split()` and `\s`
(ASCII range): space, tab, newline, carriage return, form feed, vertical tab. -/
def pySpace (c : Char) : Bool :=
  c = ' ' || c = '\t' || c = '\n' || c = '\r' || c = '\x0c' || c = '\x0b'

/-- `leadsWith s p` is true when `p` is an initial segment of `s`
(Python `str.startswith` / an anchored regex literal). -/
def leadsWith : List Char → List Char → Bool
  | _, [] => true
  | [], _ :: _ => false
  | c :: s, p :: ps => c == p && leadsWith s ps

/-- `trailsWith s p` is true when `p` is a final segment of `s`
(Python `str.endswith` / a `$`-anchored regex literal). -/
def trailsWith (s p : List Char) : Bool :=
  leadsWith s.reverse p.reverse

/-- `hasSub s p` is true when `p` occurs contiguously inside `s`
(plain substring occurrence). -/
def hasSub : List Char → List Char → Bool
  | _, [] => true
  | [], _ :: _ => false
  | c :: s, p :: ps => leadsWith (c :: s) (p :: ps) || hasSub s (p :: ps)

/-- Python `str.splitlines()` restricted to the ASCII line breaks that can
occur in this program's inputs: splits on `\n`, `\r\n` and `\r`, drops the
terminators, and produces no trailing empty line. -/
def pySplitlinesAux : List Char → List Char → List (List Char)
  | [], acc => if acc = [] then [] else [acc.reverse]
  | '\r' :: '\n' :: rest, acc => acc.reverse :: pySplitlinesAux rest []
  | '\n' :: rest, acc => acc.reverse :: pySplitlinesAux rest []
  | '\r' :: rest, acc => acc.reverse :: pySplitlinesAux rest []
  | c :: rest, acc => pySplitlinesAux rest (c :: acc)

/-- Python `str.splitlines()` on the text of a string. -/
def pySplitlines (l : List Char) : List (List Char) :=
  pySplitlinesAux l []

/-- Python `line.rstrip("\n")`: remove trailing newline characters. -/
def rstripNl (l : List Char) : List Char :=
  (l.reverse.dropWhile (fun c => c = '\n')).reverse

/-- Worker for `pySplitWs`; `acc` holds the current token reversed. -/
def pySplitWsAux : List Char → List Char → List (List Char)
  | [], acc => if acc = [] then [] else [acc.reverse]
  | c :: rest, acc =>
    if pySpace c then
      if acc = [] then pySplitWsAux rest []
      else acc.reverse :: pySplitWsAux rest []
    else pySplitWsAux rest (c :: acc)

/-- Python `str.split()` with no argument: split on runs of whitespace,
discarding empty tokens (used for `fields = line.split()`). -/
def pySplitWs (l : List Char) : List (List Char) :=
  pySplitWsAux l []

/-- Python `str.split(",")`: split at every comma, keeping empty pieces
(used for `lspan = fields[2].split(",")`). -/
def splitComma : List Char → List (List Char)
  | [] => [[]]
  | c :: rest =>
    if c = ',' then [] :: splitComma rest
    else
      match splitComma rest with
      | [] => [[c]]
      | t :: ts => (c :: t) :: ts

/-- Strip Python whitespace from both ends, as `int(str)` does before
parsing its argument. -/
def pyStrip (l : List Char) : List Char :=
  ((l.dropWhile pySpace).reverse.dropWhile pySpace).reverse

/-- ASCII decimal digit, the `\d` class and the digits `int()` accepts on
this program's inputs. -/
def pyDigit (c : Char) : Bool :=
  48 ≤ c.toNat && c.toNat ≤ 57

/-- One step of decimal accumulation. -/
def decStep (a : Nat) (c : Char) : Nat :=
  10 * a + (c.toNat - 48)

/-- Value of a list of decimal digit characters, most significant first. -/
def decVal (l : List Char) : Nat :=
  l.foldl decStep 0

/-- Digits after the first one, as Python `int()` accepts them: each further
character is a digit, or a single underscore that must be followed by a
digit (`1_000` parses, `1__0`, `1_` and `_1` do not). -/
def digitsCore : List Char → Nat → Option Nat
  | [], acc => some acc
  | c :: rest, acc =>
    if pyDigit c then digitsCore rest (decStep acc c)
    else if c = '_' then
      match rest with
      | [] => none
      | d :: rest' => if pyDigit d then digitsCore rest' (decStep acc d) else none
    else none

/-- The unsigned part of Python `int(str)`: a leading digit followed by
`digitsCore`; anything else raises `ValueError`, modelled as `none`. -/
def pyIntCore : List Char → Option Nat
  | [] => none
  | c :: rest => if pyDigit c then digitsCore rest (c.toNat - 48) else none

/-- Python `int(str)` on an ASCII decimal string: strip surrounding
whitespace, allow one optional sign, then parse digits; failure models the
`ValueError` that the script does not catch. -/
def pyInt? (l0 : List Char) : Option Int :=
  match pyStrip l0 with
  | [] => none
  | c :: rest =>
    if c = '+' then (pyIntCore rest).map (fun n => (n : Int))
    else if c = '-' then (pyIntCore rest).map (fun n => -(n : Int))
    else (pyIntCore (c :: rest)).map (fun n => (n : Int))

/-- The `Multimap.__setitem__` of the script: on an ordered association list
(Python dicts preserve insertion order), append `v` to the list at key `k`
when `k` is present, otherwise add the new key at the end with `[v]`. -/
def mmInsert (m : List (String × List (Int × Int))) (k : String) (v : Int × Int) :
    List (String × List (Int × Int)) :=
  if m.any (fun p => p.1 == k) then
    m.map (fun p => if p.1 == k then (p.1, p.2 ++ [v]) else p)
  else m ++ [(k, [v])]

/-- State of the diff scan in `git_changed_lines`: the local variable
`file` and the accumulated `changed_lines` multimap. -/
structure ScanState where
  file : String
  changed : List (String × List (Int × Int))
deriving DecidableEq, Repr

/-- The suffix test of `re.match(r"^\+\+\+ b/(.*(\.cpp|\.h|\.hpp))$", line)`
on the part after `+++ b/`: the path must end in `.cpp`, `.h` or `.hpp`. -/
def recognizedExt (p : List Char) : Bool :=
  trailsWith p (".cpp".data) || trailsWith p (".h".data) || trailsWith p (".hpp".data)

/-- The body of `git_changed_lines`' loop for one diff line, translated
statement by statement:
`line = line.rstrip("\n")`; `fields = line.split()`;
the first `re.match(r"^\+\+\+ b/.*", line)` clears `file`;
the second `re.match(r"^\+\+\+ b/(.*(\.cpp|\.h|\.hpp))$", line)` sets `file`
to the captured path; on `re.match(r"^@@", line)` with `file != ""`,
`lspan = fields[2].split(",")` is padded with a `0` count when it has one
piece and `[int(lspan[0]), int(lspan[0]) + int(lspan[1])]` is appended to
the multimap. `none` models the uncaught `IndexError` of `fields[2]` and
the uncaught `ValueError` of `int`. -/
def processLine (st : ScanState) (line0 : List Char) : Option ScanState :=
  let line := rstripNl line0
  let fields := pySplitWs line
  let f1 : String := if leadsWith line ("+++ b/".data) then "" else st.file
  let f2 : String :=
    if leadsWith line ("+++ b/".data) && recognizedExt (line.drop 6) then
      String.mk (line.drop 6)
    else f1
  if leadsWith line ("@@".data) && f2 != "" then
    (fields.get? 2).bind (fun span =>
      let lspan := splitComma span
      let start? := pyInt? (lspan.headD [])
      let count? : Option Int :=
        if lspan.length ≤ 1 then some 0 else pyInt? (lspan.getD 1 [])
      start?.bind (fun a => count?.map (fun b =>
        ⟨f2, mmInsert st.changed f2 (a, a + b)⟩)))
  else some ⟨f2, st.changed⟩

/-- Fold `processLine` over the diff lines, propagating the first error. -/
def scanLines (st : ScanState) : List (List Char) → Option ScanState
  | [] => some st
  | l :: ls =>
    match processLine st l with
    | none => none
    | some st' => scanLines st' ls

/-- `file = ""` and an empty multimap at the top of `git_changed_lines`. -/
def initState : ScanState :=
  ⟨"", []⟩

/-- `git_changed_lines` up to serialization: scan the diff text (the output
of `git diff --text --unified=0 <commit>`, taken here as the input) and
return the accumulated per-file ranges; `none` is an uncaught exception. -/
def gitChangedLines (diff : String) : Option (List (String × List (Int × Int))) :=
  (scanLines initState (pySplitlines diff.data)).map (fun st => st.changed)

/-- One hex digit, lowercase, as Python's `json` module emits them. -/
def hexChar (n : Nat) : Char :=
  if n < 10 then Char.ofNat (n + 48) else Char.ofNat (n + 87)

/-- Four hex digits for a `\uXXXX` escape. -/
def hex4 (n : Nat) : String :=
  String.mk [hexChar (n / 4096 % 16), hexChar (n / 256 % 16), hexChar (n / 16 % 16),
    hexChar (n % 16)]

/-- Escaping of one character inside a JSON string, following
`json.dumps` defaults (`ensure_ascii=True`). -/
def jsonEscChar (c : Char) : String :=
  if c = '"' then "\\\""
  else if c = '\\' then "\\\\"
  else if c = '\n' then "\\n"
  else if c = '\t' then "\\t"
  else if c = '\r' then "\\r"
  else if c.toNat = 8 then "\\b"
  else if c.toNat = 12 then "\\f"
  else if 32 ≤ c.toNat && c.toNat ≤ 126 then String.mk [c]
  else if c.toNat ≤ 65535 then "\\u" ++ hex4 c.toNat
  else
    "\\u" ++ hex4 (55296 + (c.toNat - 65536) / 1024) ++
      "\\u" ++ hex4 (56320 + (c.toNat - 65536) % 1024)

/-- A JSON string literal for `s`. -/
def jsonStr (s : String) : String :=
  "\"" ++ String.join (s.data.map jsonEscChar) ++ "\""

/-- The `json.dumps([{"name": key, "lines": value} for key, value in
changed_lines.items()])` of the script, with Python's default separators. -/
def jsonDumps (m : List (String × List (Int × Int))) : String :=
  "[" ++ String.intercalate ", " (m.map (fun p =>
    "\x7b\"name\": " ++ jsonStr p.1 ++ ", \"lines\": [" ++
      String.intercalate ", " (p.2.map (fun r =>
        "[" ++ toString r.1 ++ ", " ++ toString r.2 ++ "]")) ++ "]\x7d")) ++ "]"

/-- The full `git_changed_lines`: scan, then serialize. -/
def gitChangedLinesJson (diff : String) : Option String :=
  (gitChangedLines diff).map jsonDumps

/-- `check_output(output)`: `re.match(r"^/.* warning: ", output)`.
`re.match` anchors at the start of the whole captured output and `.` does
not cross a newline, so the pattern can only match inside the portion of
`output` before its first `\n`: that portion must start with `/` and
contain `" warning: "` after it. -/
def check_output (output : String) : Bool :=
  let firstLine := output.data.takeWhile (fun c => c ≠ '\n')
  leadsWith firstLine ['/'] && hasSub (firstLine.drop 1) (" warning: ".data)

/-- The exit status computed at the end of `tidy`:
`ok = check_output(stdout); return 0 if ok else 1`. -/
def tidyStatus (stdout : String) : Nat :=
  if check_output stdout then 0 else 1

/-- Spec-side predicate (the claim's "warning marker pattern" applied to a
single line): the line starts with `/` and contains `" warning: "` after
it. -/
def lineWarnB (l : List Char) : Bool :=
  leadsWith l ['/'] && hasSub (l.drop 1) (" warning: ".data)

/-- Spec-side exit status for comparison: `0` exactly when at least one
line of the tool output matches the warning marker pattern. -/
def specStatusAnyLine (stdout : String) : Nat :=
  if (pySplitlines stdout.data).any lineWarnB then 0 else 1

/-- The character class `.` of the diagnostic regex: anything but `\n`. -/
def reDot (c : Char) : Bool :=
  c ≠ '\n'

/-- The character class `[a-z0-9,\-]` of the diagnostic regex. -/
def reRule (c : Char) : Bool :=
  (97 ≤ c.toNat && c.toNat ≤ 122) || pyDigit c || c = ',' || c = '-'

/-- Greedy `class*`: offer the continuation every split of the maximal
matching run, longest first, exactly as a backtracking regex engine does. -/
def greedyStar (p : Char → Bool) (s : List Char)
    (k : List Char → List Char → Option α) : Option α :=
  let pre := s.takeWhile p
  let suf := s.drop pre.length
  (List.range (pre.length + 1)).reverse.findSome? (fun i =>
    k (pre.take i) (pre.drop i ++ suf))

/-- Greedy `class+`: like `greedyStar` but at least one character. -/
def greedyPlus (p : Char → Bool) (s : List Char)
    (k : List Char → List Char → Option α) : Option α :=
  let pre := s.takeWhile p
  let suf := s.drop pre.length
  ((List.range pre.length).reverse.map (fun i => i + 1)).findSome? (fun i =>
    k (pre.take i) (pre.drop i ++ suf))

/-- Match one literal character. -/
def expectChar (c : Char) (s : List Char) (k : List Char → Option α) : Option α :=
  match s with
  | c' :: rest => if c' = c then k rest else none
  | [] => none

/-- Match a literal string. -/
def expectLit (lit s : List Char) (k : List Char → Option α) : Option α :=
  if leadsWith s lit then k (s.drop lit.length) else none

/-- The alternation `(error|warning)`, alternatives tried left to right. -/
def sevAlt (s : List Char) (k : String → List Char → Option α) : Option α :=
  (if leadsWith s ("error".data) then k "error" (s.drop 5) else none) <|>
    (if leadsWith s ("warning".data) then k "warning" (s.drop 7) else none)

/-- `re.match` of the script's diagnostic pattern
`^(.*):(\d+):(\d+):\s+(error|warning):\s+(.*) \[([a-z0-9,\-]+)\]\s*$`
against one line, with Python's greedy backtracking semantics; returns the
six captured groups `(file, line, col, severity, message, rule)`.
The final `$` accepts the end of the string or a single trailing `\n`. -/
def clangTidyMatch (line : String) :
    Option (String × String × String × String × String × String) :=
  greedyStar reDot line.data (fun file r1 =>
  expectChar ':' r1 (fun r2 =>
  greedyPlus pyDigit r2 (fun ln r3 =>
  expectChar ':' r3 (fun r4 =>
  greedyPlus pyDigit r4 (fun col r5 =>
  expectChar ':' r5 (fun r6 =>
  greedyPlus pySpace r6 (fun _ r7 =>
  sevAlt r7 (fun severity r8 =>
  expectChar ':' r8 (fun r9 =>
  greedyPlus pySpace r9 (fun _ r10 =>
  greedyStar reDot r10 (fun msg r11 =>
  expectLit " [".data r11 (fun r12 =>
  greedyPlus reRule r12 (fun rule r13 =>
  expectChar ']' r13 (fun r14 =>
  greedyStar pySpace r14 (fun _ r15 =>
  if r15 = [] ∨ r15 = ['\n'] then
    some (String.mk file, String.mk ln, String.mk col, severity,
      String.mk msg, String.mk rule)
  else none)))))))))))))))

/-- Python `str.removeprefix`: drop `p` from the front of `s` when it is
there, otherwise return `s` unchanged. -/
def removePre (s p : String) : String :=
  if leadsWith s.data p.data then String.mk (s.data.drop p.data.length) else s

/-- The hard-coded path prefix stripped in the GitHub-Actions branch:
`file.removeprefix("/__w/velox/velox/")`. -/
def veloxKnownPre : String :=
  "/__w/velox/velox/"

/-- The annotation printed for one diagnostic line in the GitHub-Actions
branch of `tidy`, with the stripped path prefix as a parameter: if the line
matches the diagnostic pattern, emit
`::{severity} file={file},line={line},col={col},title={rule}::{message}`
with the known prefix removed from the file path; otherwise nothing. -/
def annotateLine (kp : String) (line : String) : Option String :=
  match clangTidyMatch line with
  | none => none
  | some (file, ln, col, severity, message, rule) =>
    some ("::" ++ severity ++ " file=" ++ removePre file kp ++ ",line=" ++ ln ++
      ",col=" ++ col ++ ",title=" ++ rule ++ "::" ++ message)

/-- The annotation transform exactly as the script runs it, with the
hard-coded velox prefix. -/
def annotateGHA : String → Option String :=
  annotateLine veloxKnownPre

/-- `fix = "--fix" if args.fix == "fix" else ""`: `none` models
`args.fix is None` (flag absent); Python's `None == "fix"` is `False`. -/
def fixFlag (argFix : Option String) : String :=
  if argFix = some "fix" then "--fix" else ""

/-- The command string built in `tidy` (the f-string), as a function of the
already-computed `fix` and `lines` fragments. -/
def tidyCommand (fix lines : String) : String :=
  "xargs clang-tidy -p=_build/release/ --format-style=file -header-filter='.*' --quiet "
    ++ fix ++ " " ++ lines

/-- Diff text refuting C2's generalization: the `+++ /dev/null` section has
no `+++ b/...` line, so `file` keeps its previous value `a.cpp` and the
deletion hunk is attributed to `a.cpp`. -/
def c2diff : String :=
  "+++ b/a.cpp\n@@ -1,0 +2,3 @@\n--- a/old.cpp\n+++ /dev/null\n@@ -1,5 +0,0 @@"

/-- Tool output refuting C1: the second line matches the warning marker
pattern but the first does not, and `re.match` only sees the first. -/
def c1out : String :=
  "x\n/a/b.cpp:1:1: warning: unused [rule-x]"

/-- Diff text for C5: an omitted count (`+7`) and an explicit zero count
(`+12,0`) both yield degenerate ranges that stay in the output. -/
def c5diff : String :=
  "+++ b/a.cpp\n@@ -5 +7 @@\n@@ -10,0 +12,0 @@"

/-- Diff text for C7: duplicate hunks under one file, an interleaved second
file, and a later return to the first file. -/
def c7diff : String :=
  "+++ b/foo.cpp\n@@ -1,0 +2,3 @@\n@@ -1,0 +2,3 @@\n+++ b/x.h\n@@ -1 +4 @@\n+++ b/foo.cpp\n@@ -9,0 +2,3 @@"

/-- Diff text for C8: under a recognized file, a hunk header whose third
field has a non-numeric start (`+x,3`). -/
def c8diff : String :=
  "+++ b/a.cpp\n@@ -1,0 +x,3 @@"

/-! ### Supporting lemmas -/

theorem leadsWith_iff (p : List Char) : ∀ s, leadsWith s p = true ↔ ∃ t, s = p ++ t := by
  induction p with
  | nil =>
    intro s
    simp [leadsWith]
  | cons q qs ih =>
    intro s
    cases s with
    | nil => simp [leadsWith]
    | cons c cs =>
      simp only [leadsWith, Bool.and_eq_true, beq_iff_eq, ih, List.cons_append,
        List.cons.injEq]
      constructor
      · rintro ⟨rfl, t, rfl⟩
        exact ⟨t, rfl, rfl⟩
      · rintro ⟨t, rfl, rfl⟩
        exact ⟨rfl, t, rfl⟩

theorem leadsWith_append_self (p t : List Char) : leadsWith (p ++ t) p = true :=
  (leadsWith_iff p (p ++ t)).mpr ⟨t, rfl⟩

theorem hasSub_iff (p : List Char) : ∀ s, hasSub s p = true ↔ ∃ u v, s = u ++ p ++ v := by
  intro s
  induction s with
  | nil =>
    cases p with
    | nil => simp [hasSub]
    | cons q qs => simp [hasSub]
  | cons c cs ih =>
    cases p with
    | nil => exact ⟨fun _ => ⟨[], c :: cs, rfl⟩, fun _ => rfl⟩
    | cons q qs =>
      simp only [hasSub, Bool.or_eq_true, leadsWith_iff, ih]
      constructor
      · rintro (⟨t, ht⟩ | ⟨u, v, huv⟩)
        · exact ⟨[], t, by simpa using ht⟩
        · exact ⟨c :: u, v, by simp [huv]⟩
      · rintro ⟨u, v, huv⟩
        cases u with
        | nil => exact Or.inl ⟨v, by simpa using huv⟩
        | cons x xs =>
          simp only [List.cons_append, List.cons.injEq] at huv
          exact Or.inr ⟨xs, v, huv.2⟩

theorem pyDigit_toNat {c : Char} (h : pyDigit c = true) : 48 ≤ c.toNat ∧ c.toNat ≤ 57 := by
  simpa [pyDigit] using h

theorem pyDigit_ne_of {c d : Char} (h : pyDigit c = true) (hd : pyDigit d = false) :
    ¬(c = d) := by
  rintro rfl
  rw [h] at hd
  cases hd

theorem pyDigit_not_space {c : Char} (h : pyDigit c = true) : pySpace c = false := by
  cases hs : pySpace c with
  | false => rfl
  | true =>
    have hmem : ((((c = ' ' ∨ c = '\t') ∨ c = '\n') ∨ c = '\x0d') ∨ c = '\x0c') ∨ c = '\x0b' := by
      simpa [pySpace] using hs
    rcases hmem with ((((rfl | rfl) | rfl) | rfl) | rfl) | rfl <;> exact absurd h (by decide)

theorem space_false_ne_nl {c : Char} (h : pySpace c = false) : ¬(c = '\n') := by
  rintro rfl
  exact absurd h (by decide)

theorem dropWhile_eq_self_of {p : Char → Bool} :
    ∀ {l : List Char}, (∀ c ∈ l, p c = false) → l.dropWhile p = l := by
  intro l h
  cases l with
  | nil => rfl
  | cons c cs => simp [List.dropWhile_cons, h c (by simp)]

theorem pyStrip_of_nospace {l : List Char} (h : ∀ c ∈ l, pySpace c = false) :
    pyStrip l = l := by
  unfold pyStrip
  rw [dropWhile_eq_self_of h, dropWhile_eq_self_of (by simpa using h), List.reverse_reverse]

theorem rstripNl_of_no_nl {l : List Char} (h : ∀ c ∈ l, ¬(c = '\n')) :
    rstripNl l = l := by
  unfold rstripNl
  rw [dropWhile_eq_self_of (by simpa using fun c hc => h c hc), List.reverse_reverse]

theorem rstripNl_of_reverse_cons {l : List Char} {c : Char} {t : List Char}
    (h : l.reverse = c :: t) (hc : ¬(c = '\n')) : rstripNl l = l := by
  unfold rstripNl
  rw [h, List.dropWhile_cons, if_neg (by simpa using hc), ← h, List.reverse_reverse]

theorem digitsCore_digits : ∀ (l : List Char) (acc : Nat),
    (∀ c ∈ l, pyDigit c = true) → digitsCore l acc = some (l.foldl decStep acc) := by
  intro l
  induction l with
  | nil => intro acc _; rfl
  | cons c cs ih =>
    intro acc h
    have hc := h c (by simp)
    rw [digitsCore.eq_def]
    simp only [hc, if_true, List.foldl_cons]
    exact ih _ (fun d hd => h d (by simp [hd]))

theorem pyIntCore_digits {l : List Char} (hne : l ≠ []) (h : ∀ c ∈ l, pyDigit c = true) :
    pyIntCore l = some (decVal l) := by
  cases l with
  | nil => exact absurd rfl hne
  | cons c cs =>
    rw [pyIntCore, if_pos (h c (by simp)), digitsCore_digits cs _
      (fun d hd => h d (by simp [hd]))]
    have h48 := pyDigit_toNat (h c (by simp))
    simp [decVal, decStep]

theorem pyInt?_digits {l : List Char} (hne : l ≠ []) (h : ∀ c ∈ l, pyDigit c = true) :
    pyInt? l = some ((decVal l : Nat) : Int) := by
  cases l with
  | nil => exact absurd rfl hne
  | cons c cs =>
    have hc := h c (by simp)
    have hns : ∀ d ∈ c :: cs, pySpace d = false := fun d hd => pyDigit_not_space (h d hd)
    simp only [pyInt?, pyStrip_of_nospace hns]
    rw [if_neg (pyDigit_ne_of hc (by decide)), if_neg (pyDigit_ne_of hc (by decide)),
      pyIntCore_digits (by simp) h]
    rfl

theorem pyInt?_plus_digits {l : List Char} (hne : l ≠ []) (h : ∀ c ∈ l, pyDigit c = true) :
    pyInt? ('+' :: l) = some ((decVal l : Nat) : Int) := by
  have hns : ∀ c ∈ '+' :: l, pySpace c = false := by
    intro c hc
    rcases List.mem_cons.mp hc with rfl | hc
    · decide
    · exact pyDigit_not_space (h c hc)
  simp only [pyInt?, pyStrip_of_nospace hns, if_true]
  rw [pyIntCore_digits hne h]
  rfl

theorem splitComma_ne_nil : ∀ l : List Char, splitComma l ≠ [] := by
  intro l
  cases l with
  | nil => simp [splitComma]
  | cons c rest =>
    by_cases hc : c = ','
    · simp [splitComma, hc]
    · simp only [splitComma, hc, if_false]
      cases splitComma rest <;> simp

theorem splitComma_nocomma : ∀ {l : List Char}, (∀ c ∈ l, ¬(c = ',')) → splitComma l = [l] := by
  intro l
  induction l with
  | nil => intro _; rfl
  | cons c rest ih =>
    intro h
    rw [splitComma, if_neg (h c (by simp)), ih (fun d hd => h d (by simp [hd]))]

theorem splitComma_append_comma : ∀ {a : List Char} (b : List Char),
    (∀ c ∈ a, ¬(c = ',')) → splitComma (a ++ ',' :: b) = a :: splitComma b := by
  intro a
  induction a with
  | nil => intro b _; simp [splitComma]
  | cons c a' ih =>
    intro b h
    rw [List.cons_append, splitComma, if_neg (h c (by simp)),
      ih b (fun d hd => h d (by simp [hd]))]

theorem pySplitWsAux_nil (acc : List Char) :
    pySplitWsAux [] acc = if acc = [] then [] else [acc.reverse] := by
  rw [pySplitWsAux]

theorem pySplitWsAux_nospace : ∀ (t rest acc : List Char),
    (∀ c ∈ t, pySpace c = false) →
    pySplitWsAux (t ++ rest) acc = pySplitWsAux rest (t.reverse ++ acc) := by
  intro t
  induction t with
  | nil => intro rest acc _; simp
  | cons c cs ih =>
    intro rest acc h
    have hc := h c (by simp)
    rw [List.cons_append, pySplitWsAux]
    simp only [hc, Bool.false_eq_true, if_false]
    rw [ih rest (c :: acc) (fun d hd => h d (by simp [hd]))]
    simp

theorem pySplitWsAux_space {c : Char} (hc : pySpace c = true) (rest acc : List Char) :
    pySplitWsAux (c :: rest) acc =
      if acc = [] then pySplitWsAux rest [] else acc.reverse :: pySplitWsAux rest [] := by
  rw [pySplitWsAux]
  simp [hc]

theorem pySplitWsAux_tok {t : List Char} (hne : t ≠ []) (hns : ∀ c ∈ t, pySpace c = false)
    (rest : List Char) :
    pySplitWsAux (t ++ ' ' :: rest) [] = t :: pySplitWsAux rest [] := by
  rw [pySplitWsAux_nospace t (' ' :: rest) [] hns, pySplitWsAux_space (by decide),
    List.append_nil, if_neg (by simpa using hne), List.reverse_reverse]

theorem pySplitWsAux_tok_end {t : List Char} (hne : t ≠ []) (hns : ∀ c ∈ t, pySpace c = false) :
    pySplitWsAux t [] = [t] := by
  have h := pySplitWsAux_nospace t [] [] hns
  rw [List.append_nil] at h
  rw [h, pySplitWsAux_nil, List.append_nil, if_neg (by simpa using hne),
    List.reverse_reverse]

theorem pySplitWs_hunk (os t3 : List Char) (hos : os ≠ []) (hosns : ∀ c ∈ os, pySpace c = false)
    (ht3 : t3 ≠ []) (ht3ns : ∀ c ∈ t3, pySpace c = false) :
    pySplitWs ('@' :: '@' :: ' ' :: os ++ ' ' :: t3 ++ [' ', '@', '@']) =
      [['@', '@'], os, t3, ['@', '@']] := by
  have hshape : ('@' :: '@' :: ' ' :: os ++ ' ' :: t3 ++ [' ', '@', '@'] : List Char) =
      (['@', '@'] : List Char) ++ ' ' :: (os ++ ' ' :: (t3 ++ ' ' :: (['@', '@'] : List Char))) := by
    simp
  unfold pySplitWs
  rw [hshape, pySplitWsAux_tok (by decide) (by decide), pySplitWsAux_tok hos hosns,
    pySplitWsAux_tok ht3 ht3ns, pySplitWsAux_tok_end (by decide) (by decide)]

theorem markerChars : "+++ b/".data = ['+', '+', '+', ' ', 'b', '/'] := rfl

theorem atChars : "@@".data = ['@', '@'] := rfl

theorem recognizedExt_reverse {x : List Char} (h : recognizedExt x = true) :
    ∃ c t, x.reverse = c :: t ∧ ¬(c = '\n') := by
  have hor : (trailsWith x (".cpp".data) = true ∨ trailsWith x (".h".data) = true) ∨
      trailsWith x (".hpp".data) = true := by
    simpa [recognizedExt] using h
  rcases hor with (h1 | h1) | h1 <;> unfold trailsWith at h1
  · obtain ⟨t, ht⟩ := (leadsWith_iff _ _).mp h1
    rw [show ((".cpp".data).reverse : List Char) = ['p', 'p', 'c', '.'] from rfl] at ht
    exact ⟨'p', ['p', 'c', '.'] ++ t, by simpa using ht, by decide⟩
  · obtain ⟨t, ht⟩ := (leadsWith_iff _ _).mp h1
    rw [show ((".h".data).reverse : List Char) = ['h', '.'] from rfl] at ht
    exact ⟨'h', ['.'] ++ t, by simpa using ht, by decide⟩
  · obtain ⟨t, ht⟩ := (leadsWith_iff _ _).mp h1
    rw [show ((".hpp".data).reverse : List Char) = ['p', 'p', 'h', '.'] from rfl] at ht
    exact ⟨'p', ['p', 'h', '.'] ++ t, by simpa using ht, by decide⟩

theorem recognizedExt_ne_nil {x : List Char} (h : recognizedExt x = true) : x ≠ [] := by
  rintro rfl
  exact absurd h (by decide)

theorem rstripNl_marker {x : List Char} (h : recognizedExt x = true) :
    rstripNl ("+++ b/".data ++ x) = "+++ b/".data ++ x := by
  obtain ⟨c, t, hrev, hc⟩ := recognizedExt_reverse h
  refine rstripNl_of_reverse_cons (c := c) (t := t ++ ("+++ b/".data).reverse) ?_ hc
  rw [List.reverse_append, hrev]
  rfl

theorem marker_drop6 (x : List Char) :
    List.drop 6 ((['+', '+', '+', ' ', 'b', '/'] : List Char) ++ x) = x := rfl

theorem marker_not_hunk (x : List Char) :
    leadsWith ((['+', '+', '+', ' ', 'b', '/'] : List Char) ++ x) ['@', '@'] = false := rfl

theorem hunk_not_marker (l : List Char) :
    leadsWith ('@' :: l) ("+++ b/".data) = false := rfl

theorem string_mk_ne_empty {x : List Char} (h : x ≠ []) : String.mk x ≠ "" := by
  intro hc
  exact h (by simpa using congrArg String.data hc)

theorem processLine_marker_recognized (st : ScanState) {x : List Char}
    (h : recognizedExt x = true) :
    processLine st ("+++ b/".data ++ x) = some ⟨String.mk x, st.changed⟩ := by
  unfold processLine
  simp only [rstripNl_marker h, markerChars, atChars, leadsWith_append_self, marker_drop6,
    marker_not_hunk, h, Bool.and_self, if_true, Bool.false_and, Bool.false_eq_true, if_false]

theorem processLine_marker_unrecognized (st : ScanState) {p : List Char}
    (hnl : ∀ c ∈ p, ¬(c = '\n')) (h : recognizedExt p = false) :
    processLine st ("+++ b/".data ++ p) = some ⟨"", st.changed⟩ := by
  have hr : rstripNl ("+++ b/".data ++ p) = "+++ b/".data ++ p := by
    refine rstripNl_of_no_nl ?_
    intro c hc
    rcases List.mem_append.mp hc with hm | hm
    · have hsix : c = '+' ∨ c = '+' ∨ c = '+' ∨ c = ' ' ∨ c = 'b' ∨ c = '/' := by
        simpa using hm
      rcases hsix with rfl | rfl | rfl | rfl | rfl | rfl <;> decide
    · exact hnl c hm
  unfold processLine
  simp only [hr, markerChars, atChars, leadsWith_append_self, marker_drop6, marker_not_hunk,
    h, Bool.and_false, Bool.false_eq_true, if_false, if_true, Bool.false_and]

theorem processLine_file_of_no_marker {st st' : ScanState} {l : List Char}
    (h : leadsWith (rstripNl l) ("+++ b/".data) = false)
    (hp : processLine st l = some st') : st'.file = st.file := by
  unfold processLine at hp
  simp only [h, Bool.false_and, Bool.false_eq_true, if_false] at hp
  split at hp
  · cases hq : (pySplitWs (rstripNl l)).get? 2 with
    | none => rw [hq] at hp; cases hp
    | some span =>
      rw [hq, Option.some_bind] at hp
      cases ha : pyInt? ((splitComma span).headD []) with
      | none => rw [ha] at hp; cases hp
      | some a =>
        rw [ha, Option.some_bind] at hp
        cases hb : (if (splitComma span).length ≤ 1 then some (0 : Int)
            else pyInt? ((splitComma span).getD 1 [])) with
        | none => rw [hb] at hp; cases hp
        | some b =>
          rw [hb, Option.map_some'] at hp
          cases hp
          rfl
  · cases hp
    rfl

theorem scanLines_append (st : ScanState) (a b : List (List Char)) :
    scanLines st (a ++ b) = (scanLines st a).bind (fun st' => scanLines st' b) := by
  induction a generalizing st with
  | nil => simp [scanLines]
  | cons l ls ih =>
    simp only [List.cons_append, scanLines]
    cases processLine st l with
    | none => simp
    | some st' => simpa using ih st'

theorem scanLines_file_stable : ∀ (ls : List (List Char)) (st st' : ScanState),
    (∀ l ∈ ls, leadsWith (rstripNl l) ("+++ b/".data) = false) →
    scanLines st ls = some st' → st'.file = st.file := by
  intro ls
  induction ls with
  | nil =>
    intro st st' _ h
    cases h
    rfl
  | cons l ls ih =>
    intro st st' hm hs
    rw [scanLines] at hs
    cases hp : processLine st l with
    | none => rw [hp] at hs; cases hs
    | some st1 =>
      rw [hp] at hs
      rw [ih st1 st' (fun x hx => hm x (by simp [hx])) hs,
        processLine_file_of_no_marker (hm l (by simp)) hp]

theorem processLine_empty_no_recognized {ch : List (String × List (Int × Int))} {l : List Char}
    (h : leadsWith (rstripNl l) ("+++ b/".data) = false ∨
      recognizedExt ((rstripNl l).drop 6) = false) :
    processLine ⟨"", ch⟩ l = some ⟨"", ch⟩ := by
  unfold processLine
  cases hb : leadsWith (rstripNl l) ("+++ b/".data) with
  | false => simp [hb]
  | true =>
    rcases h with h | h
    · rw [hb] at h
      cases h
    · simp [hb, h]

theorem scanLines_empty_no_recognized :
    ∀ (ls : List (List Char)) (ch : List (String × List (Int × Int))),
    (∀ l ∈ ls, leadsWith (rstripNl l) ("+++ b/".data) = false ∨
      recognizedExt ((rstripNl l).drop 6) = false) →
    scanLines ⟨"", ch⟩ ls = some ⟨"", ch⟩ := by
  intro ls
  induction ls with
  | nil => intro ch _; rfl
  | cons l ls ih =>
    intro ch h
    rw [scanLines, processLine_empty_no_recognized (h l (by simp))]
    exact ih ch (fun x hx => h x (by simp [hx]))

theorem leadsWith_nil (s : List Char) : leadsWith s [] = true := by
  cases s <;> rfl

theorem hunk_leads_at (l : List Char) :
    leadsWith ('@' :: '@' :: l) (['@', '@'] : List Char) = true := by
  simp [leadsWith, leadsWith_nil]

theorem hunk_not_marker_chars (l : List Char) :
    leadsWith ('@' :: l) (['+', '+', '+', ' ', 'b', '/'] : List Char) = false := rfl

theorem processLine_hunk_tok (st : ScanState) (os t3 : List Char) (a b : Int)
    (hfile : st.file ≠ "")
    (hos : os ≠ []) (hosns : ∀ c ∈ os, pySpace c = false)
    (ht3 : t3 ≠ []) (ht3ns : ∀ c ∈ t3, pySpace c = false)
    (hstart : pyInt? ((splitComma t3).headD []) = some a)
    (hcount : (if (splitComma t3).length ≤ 1 then some (0 : Int)
      else pyInt? ((splitComma t3).getD 1 [])) = some b) :
    processLine st ('@' :: '@' :: ' ' :: os ++ ' ' :: t3 ++ [' ', '@', '@']) =
      some ⟨st.file, mmInsert st.changed st.file (a, a + b)⟩ := by
  have hnl : ∀ c ∈ ('@' :: '@' :: ' ' :: os ++ ' ' :: t3 ++ [' ', '@', '@'] : List Char),
      ¬(c = '\n') := by
    intro c hc
    rcases List.mem_append.mp hc with hc | hc
    · rcases List.mem_append.mp hc with hc | hc
      · rcases List.mem_cons.mp hc with rfl | hc
        · decide
        rcases List.mem_cons.mp hc with rfl | hc
        · decide
        rcases List.mem_cons.mp hc with rfl | hc
        · decide
        exact space_false_ne_nl (hosns c hc)
      · rcases List.mem_cons.mp hc with rfl | hc
        · decide
        exact space_false_ne_nl (ht3ns c hc)
    · have h3 : c = ' ' ∨ c = '@' ∨ c = '@' := by simpa using hc
      rcases h3 with rfl | rfl | rfl <;> decide
  have hline : ('@' :: '@' :: ' ' :: os ++ ' ' :: t3 ++ [' ', '@', '@'] : List Char) =
      '@' :: '@' :: ' ' :: (os ++ ' ' :: (t3 ++ [' ', '@', '@'])) := by simp
  have hfb : (st.file != "") = true := by simpa using hfile
  rw [hline] at hnl ⊢
  have hsplit : pySplitWs ('@' :: '@' :: ' ' :: (os ++ ' ' :: (t3 ++ [' ', '@', '@']))) =
      [['@', '@'], os, t3, ['@', '@']] := by
    rw [← hline, pySplitWs_hunk os t3 hos hosns ht3 ht3ns]
  unfold processLine
  simp only [rstripNl_of_no_nl hnl, markerChars, atChars, hunk_not_marker_chars,
    hunk_leads_at, Bool.false_and, Bool.false_eq_true, if_false, Bool.true_and, hfb,
    if_true, hsplit, eq_self_iff_true]
  rw [show (([['@', '@'], os, t3, ['@', '@']] : List (List Char)).get? 2) = some t3 from rfl,
    Option.some_bind]
  rw [hstart, Option.some_bind, hcount, Option.map_some']

theorem digits_nocomma {cs : List Char} (h : ∀ c ∈ cs, pyDigit c = true) :
    ∀ c ∈ cs, ¬(c = ',') := fun c hc => pyDigit_ne_of (h c hc) (by decide)

theorem digits_nospace {cs : List Char} (h : ∀ c ∈ cs, pyDigit c = true) :
    ∀ c ∈ cs, pySpace c = false := fun c hc => pyDigit_not_space (h c hc)

theorem processLine_hunk_counts (st : ScanState) (os cs ds : List Char)
    (hfile : st.file ≠ "") (hos : os ≠ []) (hosns : ∀ c ∈ os, pySpace c = false)
    (hcs : cs ≠ []) (hcsd : ∀ c ∈ cs, pyDigit c = true)
    (hds : ds ≠ []) (hdsd : ∀ c ∈ ds, pyDigit c = true) :
    processLine st
        ('@' :: '@' :: ' ' :: os ++ ' ' :: ('+' :: (cs ++ ',' :: ds)) ++ [' ', '@', '@']) =
      some ⟨st.file, mmInsert st.changed st.file
        (((decVal cs : Nat) : Int), ((decVal cs : Nat) : Int) + ((decVal ds : Nat) : Int))⟩ := by
  have hsc : splitComma ('+' :: (cs ++ ',' :: ds)) = ['+' :: cs, ds] := by
    have hshape : ('+' :: (cs ++ ',' :: ds) : List Char) = ('+' :: cs) ++ ',' :: ds := by simp
    have hnc : ∀ c ∈ '+' :: cs, ¬(c = ',') := by
      intro c hc
      rcases List.mem_cons.mp hc with rfl | hc
      · decide
      · exact digits_nocomma hcsd c hc
    rw [hshape, splitComma_append_comma ds hnc, splitComma_nocomma (digits_nocomma hdsd)]
  refine processLine_hunk_tok st os ('+' :: (cs ++ ',' :: ds)) _ _ hfile hos hosns
    (by simp) ?_ ?_ ?_
  · intro c hc
    rcases List.mem_cons.mp hc with rfl | hc
    · decide
    rcases List.mem_append.mp hc with hc | hc
    · exact digits_nospace hcsd c hc
    rcases List.mem_cons.mp hc with rfl | hc
    · decide
    · exact digits_nospace hdsd c hc
  · rw [hsc]
    exact pyInt?_plus_digits hcs hcsd
  · rw [hsc]
    rw [if_neg (by simp)]
    exact pyInt?_digits hds hdsd

theorem processLine_hunk_nocount (st : ScanState) (os cs : List Char)
    (hfile : st.file ≠ "") (hos : os ≠ []) (hosns : ∀ c ∈ os, pySpace c = false)
    (hcs : cs ≠ []) (hcsd : ∀ c ∈ cs, pyDigit c = true) :
    processLine st ('@' :: '@' :: ' ' :: os ++ ' ' :: ('+' :: cs) ++ [' ', '@', '@']) =
      some ⟨st.file, mmInsert st.changed st.file
        (((decVal cs : Nat) : Int), ((decVal cs : Nat) : Int))⟩ := by
  have hsc : splitComma ('+' :: cs) = ['+' :: cs] := by
    refine splitComma_nocomma ?_
    intro c hc
    rcases List.mem_cons.mp hc with rfl | hc
    · decide
    · exact digits_nocomma hcsd c hc
  have h := processLine_hunk_tok st os ('+' :: cs) ((decVal cs : Nat) : Int) 0 hfile hos hosns
    (by simp) (by
      intro c hc
      rcases List.mem_cons.mp hc with rfl | hc
      · decide
      · exact digits_nospace hcsd c hc)
    (by rw [hsc]; exact pyInt?_plus_digits hcs hcsd)
    (by rw [hsc]; simp)
  simpa using h

theorem mmInsert_keys (m : List (String × List (Int × Int))) (k : String) (v : Int × Int) :
    (mmInsert m k v).map Prod.fst =
      if m.any (fun p => p.1 == k) then m.map Prod.fst else m.map Prod.fst ++ [k] := by
  unfold mmInsert
  split
  · have hfst : ∀ p : String × List (Int × Int),
        ((if p.1 == k then (p.1, p.2 ++ [v]) else p) : String × List (Int × Int)).1 = p.1 := by
      intro p
      by_cases hp : p.1 == k <;> simp [hp]
    simp [List.map_map, Function.comp, hfst]
    intro a b _
    by_cases hab : a = k <;> simp [hab]
  · simp

theorem mmInsert_nodup {m : List (String × List (Int × Int))} {k : String} {v : Int × Int}
    (h : (m.map Prod.fst).Nodup) : ((mmInsert m k v).map Prod.fst).Nodup := by
  rw [mmInsert_keys]
  split
  · exact h
  · next hany =>
    have hk : k ∉ m.map Prod.fst := by
      intro hmem
      obtain ⟨p, hp, hpk⟩ := List.mem_map.mp hmem
      exact hany (List.any_eq_true.mpr ⟨p, hp, by simp [hpk]⟩)
    simp [List.nodup_append, h, hk]

theorem hunkBind_changed {st : ScanState} {f2 : String} {fields : List (List Char)}
    {st' : ScanState}
    (hp : (fields.get? 2).bind (fun span =>
      let lspan := splitComma span
      let start? := pyInt? (lspan.headD [])
      let count? : Option Int := if lspan.length ≤ 1 then some 0 else pyInt? (lspan.getD 1 [])
      start?.bind (fun a => count?.map (fun b =>
        (⟨f2, mmInsert st.changed f2 (a, a + b)⟩ : ScanState)))) = some st') :
    ∃ v, st'.changed = mmInsert st.changed f2 v ∧ st'.file = f2 := by
  cases hq : fields.get? 2 with
  | none => rw [hq] at hp; cases hp
  | some span =>
    rw [hq, Option.some_bind] at hp
    dsimp only [] at hp
    cases ha : pyInt? ((splitComma span).headD []) with
    | none => rw [ha] at hp; cases hp
    | some a =>
      rw [ha, Option.some_bind] at hp
      cases hb : (if (splitComma span).length ≤ 1 then some (0 : Int)
          else pyInt? ((splitComma span).getD 1 [])) with
      | none => rw [hb] at hp; cases hp
      | some b =>
        rw [hb, Option.map_some'] at hp
        cases hp
        exact ⟨(a, a + b), rfl, rfl⟩

theorem processLine_nodup {st st' : ScanState} {l : List Char}
    (h : (st.changed.map Prod.fst).Nodup) (hp : processLine st l = some st') :
    (st'.changed.map Prod.fst).Nodup := by
  unfold processLine at hp
  dsimp only [] at hp
  generalize (if (leadsWith (rstripNl l) ("+++ b/".data) &&
        recognizedExt (List.drop 6 (rstripNl l))) = true
      then String.mk (List.drop 6 (rstripNl l))
      else if leadsWith (rstripNl l) ("+++ b/".data) = true then "" else st.file) = f2 at hp
  split at hp
  · obtain ⟨v, hv, _⟩ := hunkBind_changed hp
    rw [hv]
    exact mmInsert_nodup h
  · cases hp
    exact h

theorem scanLines_nodup : ∀ (ls : List (List Char)) (st st' : ScanState),
    (st.changed.map Prod.fst).Nodup → scanLines st ls = some st' →
    (st'.changed.map Prod.fst).Nodup := by
  intro ls
  induction ls with
  | nil =>
    intro st st' h hs
    cases hs
    exact h
  | cons l ls ih =>
    intro st st' h hs
    rw [scanLines] at hs
    cases hp : processLine st l with
    | none => rw [hp] at hs; cases hs
    | some st1 =>
      rw [hp] at hs
      exact ih st1 st' (processLine_nodup h hp) hs

theorem gitChangedLines_nodup {diff : String} {m : List (String × List (Int × Int))}
    (h : gitChangedLines diff = some m) : (m.map Prod.fst).Nodup := by
  unfold gitChangedLines at h
  cases hs : scanLines initState (pySplitlines diff.data) with
  | none => rw [hs] at h; cases h
  | some st =>
    rw [hs, Option.map_some'] at h
    cases h
    exact scanLines_nodup _ _ _ (by simp [initState]) hs

theorem scanLines_cons_some {st st1 : ScanState} {l : List Char} {ls : List (List Char)}
    (h : processLine st l = some st1) :
    scanLines st (l :: ls) = scanLines st1 ls := by
  rw [scanLines, h]

theorem scanLines_singleton (st : ScanState) (l : List Char) :
    scanLines st [l] = processLine st l := by
  rw [scanLines]
  cases processLine st l <;> rfl

theorem warn_match_iff (l : List Char) :
    (leadsWith l ['/'] && hasSub (l.drop 1) (" warning: ".data)) = true ↔
      ∃ rest u v, l = '/' :: rest ∧ rest = u ++ " warning: ".data ++ v := by
  rw [Bool.and_eq_true, leadsWith_iff, hasSub_iff]
  constructor
  · rintro ⟨⟨t, rfl⟩, u, v, huv⟩
    exact ⟨t, u, v, by simp, by simpa using huv⟩
  · rintro ⟨rest, u, v, rfl, huv⟩
    exact ⟨⟨rest, by simp⟩, u, v, by simpa using huv⟩

set_option maxRecDepth 10000

/-! ### The claims -/

/-- C1, counterexample: the script's exit status is not "0 iff some line of
the tool output matches the warning pattern": on `c1out` the second line
matches the pattern (so the claim predicts status 0) but `check_output`
applies `re.match` to the whole output, which only inspects the first line,
and the script returns 1. -/
theorem c1_some_line_counterexample :
    specStatusAnyLine c1out = 0 ∧ tidyStatus c1out = 1 := by decide

/-- C1, amended: the exit status is 0 exactly when the portion of the tool
output before its first newline starts with `/` and contains the substring
`" warning: "` after that slash; otherwise the exit status is 1. -/
theorem c1_exit_status_first_line (out : String) :
    tidyStatus out = 0 ↔
      ∃ rest u v, out.data.takeWhile (fun c => c ≠ '\n') = '/' :: rest ∧
        rest = u ++ " warning: ".data ++ v := by
  have hbool : ∀ b : Bool, (if b = true then (0 : Nat) else 1) = 0 ↔ b = true := by
    intro b
    cases b <;> simp
  unfold tidyStatus
  rw [hbool]
  unfold check_output
  dsimp only []
  exact warn_match_iff _

/-- C2, counterexample: a hunk whose file section has no `+++ b/...` line is
not always skipped: in `c2diff` the `+++ /dev/null` deletion section leaves
`file` at its previous value `a.cpp`, so its hunk `@@ -1,5 +0,0 @@` is
recorded under `a.cpp` as the extra range `(0, 0)` instead of being
attributed to no file. -/
theorem c2_devnull_counterexample :
    gitChangedLines c2diff = some [("a.cpp", [(2, 5), (0, 0)])] ∧
      ¬ gitChangedLines c2diff = some [("a.cpp", [(2, 5)])] := by decide

/-- C2, amended: a hunk header line that is not preceded by any
`+++ b/...` marker line contributes no range, because `currentFile` stays
empty over every line before the first marker: the whole extraction equals
the scan of the remaining lines alone (so in particular such hunks raise no
error either); but a hunk whose own file section merely lacks a
`+++ b/...` line leaves `currentFile` at its previous value, so it is
attributed to the most recently recognized file when one was seen earlier,
as the `+++ /dev/null` deletion in `c2diff` shows. -/
theorem c2_no_marker_no_ranges :
    (∀ (diff : String) (pre rest : List (List Char)),
      pySplitlines diff.data = pre ++ rest →
      (∀ l ∈ pre, leadsWith (rstripNl l) ("+++ b/".data) = false) →
      gitChangedLines diff = (scanLines initState rest).map (fun st => st.changed)) ∧
    gitChangedLines c2diff = some [("a.cpp", [(2, 5), (0, 0)])] := by
  constructor
  · intro diff pre rest hsplit h
    unfold gitChangedLines
    rw [hsplit, scanLines_append,
      show initState = (⟨"", []⟩ : ScanState) from rfl,
      scanLines_empty_no_recognized pre [] (fun l hl => Or.inl (h l hl)),
      Option.some_bind]
  · decide

theorem c2_no_marker_no_ranges_witness :
    gitChangedLines "@@ -1,0 +2,3 @@\n+++ b/a.cpp\n@@ -1,0 +5,2 @@" =
      (scanLines initState ["+++ b/a.cpp".data, "@@ -1,0 +5,2 @@".data]).map
        (fun st => st.changed) :=
  c2_no_marker_no_ranges.1 "@@ -1,0 +2,3 @@\n+++ b/a.cpp\n@@ -1,0 +5,2 @@"
    ["@@ -1,0 +2,3 @@".data] ["+++ b/a.cpp".data, "@@ -1,0 +5,2 @@".data]
    (by decide) (by decide)

/-- C3: inside the recognized CI environment every diagnostic line matched
by the pattern `<path>:<line>:<col>: <severity>: <message> [<rule>]` is
rewritten, with the known path prefix stripped from the path, into
`::<severity> file=<path>,line=<line>,col=<col>,title=<rule>::<message>`;
in particular `/a/b.cpp:10:3: warning: unused variable [rule-x]` becomes
`::warning file=b.cpp,line=10,col=3,title=rule-x::unused variable` when the
known prefix is `/a/`. -/
theorem c3_annotation_rewrite :
    (∀ (kp line f ln col sv msg rl : String),
      clangTidyMatch line = some (f, ln, col, sv, msg, rl) →
      annotateLine kp line = some ("::" ++ sv ++ " file=" ++ removePre f kp ++ ",line=" ++
        ln ++ ",col=" ++ col ++ ",title=" ++ rl ++ "::" ++ msg)) ∧
    annotateLine "/a/" "/a/b.cpp:10:3: warning: unused variable [rule-x]" =
      some "::warning file=b.cpp,line=10,col=3,title=rule-x::unused variable" := by
  constructor
  · intro kp line f ln col sv msg rl h
    unfold annotateLine
    rw [h]
  · decide

theorem c3_annotation_rewrite_witness :
    annotateLine "/x/" "/x/c.cpp:7:2: error: bad thing [cat-1]" =
      some ("::" ++ "error" ++ " file=" ++ removePre "/x/c.cpp" "/x/" ++ ",line=" ++ "7" ++
        ",col=" ++ "2" ++ ",title=" ++ "cat-1" ++ "::" ++ "bad thing") :=
  c3_annotation_rewrite.1 "/x/" "/x/c.cpp:7:2: error: bad thing [cat-1]" "/x/c.cpp" "7" "2"
    "error" "bad thing" "cat-1" (by decide)

/-- C4: a hunk header `@@ -a,b +c,d @@` that follows a recognized marker
`+++ b/x` (path ending in `.cpp`/`.h`/`.hpp`), with no intervening
`+++ b/` marker, appends the range `(c, c + d)` to file `x`'s list, the
leading `+` of the new-side span being accepted by integer parsing. -/
theorem c4_hunk_records_range (f0 : String) (ch : List (String × List (Int × Int)))
    (x : List Char) (mid : List (List Char)) (st1 : ScanState) (as bs cs ds : List Char)
    (hx : recognizedExt x = true)
    (hmid : ∀ l ∈ mid, leadsWith (rstripNl l) ("+++ b/".data) = false)
    (hscan : scanLines ⟨String.mk x, ch⟩ mid = some st1)
    (has : as ≠ []) (hasd : ∀ c ∈ as, pyDigit c = true)
    (hbs : bs ≠ []) (hbsd : ∀ c ∈ bs, pyDigit c = true)
    (hcs : cs ≠ []) (hcsd : ∀ c ∈ cs, pyDigit c = true)
    (hds : ds ≠ []) (hdsd : ∀ c ∈ ds, pyDigit c = true) :
    scanLines ⟨f0, ch⟩ (("+++ b/".data ++ x) :: (mid ++
        ['@' :: '@' :: ' ' :: ('-' :: (as ++ ',' :: bs)) ++
          ' ' :: ('+' :: (cs ++ ',' :: ds)) ++ [' ', '@', '@']])) =
      some ⟨String.mk x, mmInsert st1.changed (String.mk x)
        (((decVal cs : Nat) : Int),
          ((decVal cs : Nat) : Int) + ((decVal ds : Nat) : Int))⟩ := by
  rw [scanLines_cons_some (processLine_marker_recognized _ hx), scanLines_append, hscan,
    Option.some_bind, scanLines_singleton]
  have hfile : st1.file = String.mk x := scanLines_file_stable mid _ _ hmid hscan
  have hmk : String.mk x ≠ "" := string_mk_ne_empty (recognizedExt_ne_nil hx)
  have hosns : ∀ c ∈ ('-' :: (as ++ ',' :: bs) : List Char), pySpace c = false := by
    intro c hc
    rcases List.mem_cons.mp hc with rfl | hc
    · decide
    rcases List.mem_append.mp hc with hc | hc
    · exact digits_nospace hasd c hc
    rcases List.mem_cons.mp hc with rfl | hc
    · decide
    · exact digits_nospace hbsd c hc
  have hp := processLine_hunk_counts st1 ('-' :: (as ++ ',' :: bs)) cs ds
    (by rw [hfile]; exact hmk) (by simp) hosns hcs hcsd hds hdsd
  rw [hp, hfile]

theorem c4_hunk_records_range_witness :
    scanLines ⟨"", []⟩ (("+++ b/".data ++ "a.cpp".data) :: ([] ++
        ['@' :: '@' :: ' ' :: ('-' :: ("1".data ++ ',' :: "0".data)) ++
          ' ' :: ('+' :: ("2".data ++ ',' :: "3".data)) ++ [' ', '@', '@']])) =
      some ⟨String.mk "a.cpp".data, mmInsert [] (String.mk "a.cpp".data)
        (((decVal "2".data : Nat) : Int),
          ((decVal "2".data : Nat) : Int) + ((decVal "3".data : Nat) : Int))⟩ :=
  c4_hunk_records_range "" [] "a.cpp".data [] ⟨String.mk "a.cpp".data, []⟩
    "1".data "0".data "2".data "3".data (by decide) (by simp) rfl
    (by decide) (by decide) (by decide) (by decide) (by decide) (by decide)
    (by decide) (by decide)

/-- C5: a hunk header whose new-side span omits the count (`+c @@`) records
the degenerate range `(c, c)` (count treated as 0), and an explicit zero
count does the same; such degenerate ranges are kept in the output, as the
run on `c5diff` shows. -/
theorem c5_omitted_count_degenerate :
    (∀ (st : ScanState) (os cs : List Char), st.file ≠ "" → os ≠ [] →
      (∀ c ∈ os, pySpace c = false) → cs ≠ [] → (∀ c ∈ cs, pyDigit c = true) →
      processLine st ('@' :: '@' :: ' ' :: os ++ ' ' :: ('+' :: cs) ++ [' ', '@', '@']) =
        some ⟨st.file, mmInsert st.changed st.file
          (((decVal cs : Nat) : Int), ((decVal cs : Nat) : Int))⟩) ∧
    gitChangedLines c5diff = some [("a.cpp", [(7, 7), (12, 12)])] := by
  constructor
  · intro st os cs hf ho hons hc hcd
    exact processLine_hunk_nocount st os cs hf ho hons hc hcd
  · decide

theorem c5_omitted_count_degenerate_witness :
    processLine ⟨"a.cpp", []⟩
        ('@' :: '@' :: ' ' :: ('-' :: "5".data) ++ ' ' :: ('+' :: "7".data) ++ [' ', '@', '@']) =
      some ⟨"a.cpp", mmInsert [] "a.cpp"
        (((decVal "7".data : Nat) : Int), ((decVal "7".data : Nat) : Int))⟩ :=
  c5_omitted_count_degenerate.1 ⟨"a.cpp", []⟩ ('-' :: "5".data) "7".data (by decide) (by simp)
    (by decide) (by simp) (by decide)

/-- C6: a `+++ b/<path>` marker with an unrecognized extension clears
`currentFile`, a scan that starts with an empty `currentFile` and sees no
recognized marker records nothing (hunks are ignored), and a recognized
`+++ b/<path>` marker sets `currentFile` to that path. -/
theorem c6_unrecognized_marker_clears :
    (∀ (st : ScanState) (p : List Char), (∀ c ∈ p, ¬(c = '\n')) → recognizedExt p = false →
      processLine st ("+++ b/".data ++ p) = some ⟨"", st.changed⟩) ∧
    (∀ (ls : List (List Char)) (ch : List (String × List (Int × Int))),
      (∀ l ∈ ls, leadsWith (rstripNl l) ("+++ b/".data) = false ∨
        recognizedExt ((rstripNl l).drop 6) = false) →
      scanLines ⟨"", ch⟩ ls = some ⟨"", ch⟩) ∧
    (∀ (st : ScanState) (x : List Char), recognizedExt x = true →
      processLine st ("+++ b/".data ++ x) = some ⟨String.mk x, st.changed⟩) :=
  ⟨fun st p hnl h => processLine_marker_unrecognized st hnl h,
    scanLines_empty_no_recognized,
    fun st x h => processLine_marker_recognized st h⟩

theorem c6_unrecognized_marker_clears_witness :
    processLine ⟨"f.cpp", []⟩ ("+++ b/".data ++ "x.py".data) = some ⟨"", []⟩ :=
  c6_unrecognized_marker_clears.1 ⟨"f.cpp", []⟩ "x.py".data (by decide) (by decide)

/-- C7: files appear in the output mapping at most once (keys stay
distinct: a repeated file appends to its existing entry), while every hunk
appends its own range, never merged or deduplicated, as the run on
`c7diff` shows: three identical ranges are kept for `foo.cpp`, in
encounter order, with `foo.cpp` listed once in first-seen position. -/
theorem c7_ranges_per_hunk :
    (∀ (diff : String) (m : List (String × List (Int × Int))),
      gitChangedLines diff = some m → (m.map Prod.fst).Nodup) ∧
    gitChangedLines c7diff =
      some [("foo.cpp", [(2, 5), (2, 5), (2, 5)]), ("x.h", [(4, 4)])] :=
  ⟨fun _ _ h => gitChangedLines_nodup h, by decide⟩

theorem c7_ranges_per_hunk_witness :
    (([("foo.cpp", [(2, 5), (2, 5), (2, 5)]), ("x.h", [(4, 4)])] :
        List (String × List (Int × Int))).map Prod.fst).Nodup :=
  c7_ranges_per_hunk.1 c7diff
    [("foo.cpp", [(2, 5), (2, 5), (2, 5)]), ("x.h", [(4, 4)])] (by decide)

/-- C8: a line that is not a hunk header never raises and leaves the
accumulated ranges unchanged (it is silently skipped), while a hunk header
under a non-empty `currentFile` whose third field has a non-parseable
numeric part makes the whole extraction fail (`none`, the uncaught
`ValueError`), as on `c8diff` whose hunk carries the span `+x,3`. -/
theorem c8_malformed_numeric_fails :
    (∀ (st : ScanState) (l : List Char), leadsWith (rstripNl l) ("@@".data) = false →
      ∃ f, processLine st l = some ⟨f, st.changed⟩) ∧
    gitChangedLines c8diff = none := by
  constructor
  · intro st l h
    refine ⟨if (leadsWith (rstripNl l) ("+++ b/".data) &&
          recognizedExt ((rstripNl l).drop 6)) = true
        then String.mk ((rstripNl l).drop 6)
        else if leadsWith (rstripNl l) ("+++ b/".data) = true then "" else st.file, ?_⟩
    unfold processLine
    dsimp only []
    rw [h]
    simp
  · decide

theorem c8_malformed_numeric_fails_witness :
    ∃ f, processLine ⟨"a.cpp", []⟩ ("context line".data) = some ⟨f, []⟩ :=
  c8_malformed_numeric_fails.1 ⟨"a.cpp", []⟩ ("context line".data) (by decide)

/-- C9: the extractor is a pure function of the diff text: its serialized
output depends only on the line decomposition of the input, so two runs on
the same text give identical output and no state persists between runs. -/
theorem c9_extractor_deterministic (d1 d2 : String)
    (h : pySplitlines d1.data = pySplitlines d2.data) :
    gitChangedLinesJson d1 = gitChangedLinesJson d2 := by
  unfold gitChangedLinesJson gitChangedLines
  rw [h]

theorem c1_exit_status_first_line_witness :
    tidyStatus "/a.cpp:1:1: warning: v" = 0 ↔
      ∃ rest u v, ("/a.cpp:1:1: warning: v" : String).data.takeWhile (fun c => c ≠ '\n') =
          '/' :: rest ∧ rest = u ++ " warning: ".data ++ v :=
  c1_exit_status_first_line "/a.cpp:1:1: warning: v"

theorem c9_extractor_deterministic_witness :
    gitChangedLinesJson c7diff = gitChangedLinesJson c7diff :=
  c9_extractor_deterministic c7diff c7diff rfl

/-- C10: the `--fix` flag is produced exactly when the fix-mode argument is
the string `"fix"`; for any other value, including an absent argument
(`none`), the flag fragment is empty. -/
theorem c10_fix_flag (a : Option String) :
    (fixFlag a = "--fix" ↔ a = some "fix") ∧ (fixFlag a = "" ↔ ¬(a = some "fix")) := by
  by_cases h : a = some "fix" <;> simp [fixFlag, h]

theorem c10_fix_flag_witness :
    (fixFlag (some "fix") = "--fix" ↔ some "fix" = some "fix") ∧
      (fixFlag (some "fix") = "" ↔ ¬(some "fix" = some "fix")) :=
  c10_fix_flag (some "fix")
